import Mathlib

/-!
Verification of `src/ice/cand.c` (ICE candidate registry).

Shallow embedding of the candidate-registry module of the libre ICE
implementation.  The C file `src/ice/cand.c` is translated function by
function into executable Lean definitions; machine integers are modelled
as `Nat` with explicit `% 2 ^ w` where overflow could matter, pointers
that may be NULL as `Option`, and the two intrusive linked lists
(`icem->lcandl`, `icem->rcandl`) as Lean `List`s in insertion order.

Functions of this repository that `cand.c` calls but that are not part of
the provided source (`ice_calc_prio`, `sa_hash`, `icem_comp_find`,
`pl_strdup`, `rand_u32`, the `re_fmt` printing layer) are modelled from
the specification; each such definition carries a doc comment starting
with `Modelled from the spec:`.
-/

set_option maxHeartbeats 1000000

namespace IceCand

/-! ## Error codes (POSIX, as used by the C code) -/

def EINVAL : Nat := 22
def ENOMEM : Nat := 12
def ENOENT : Nat := 2

/-! ## Socket addresses (`struct sa`)

A socket address is a family, the raw address bytes and a port.
`sa_cmp(.., SA_ALL)` compares all three fields; `sa_hash(.., SA_ADDR)`
depends only on family and address bytes. -/

structure SA where
  af : Nat
  ip : List Nat
  port : Nat
deriving DecidableEq, Repr

def zeroSA : SA := { af := 0, ip := [], port := 0 }

/-- `sa_cpy(dst, src)`: copies `src` when non-NULL, otherwise leaves `dst`
unchanged (here: the zeroed address). -/
def sa_cpy (dst : SA) (src : Option SA) : SA :=
  match src with
  | none => dst
  | some s => s

/-- `sa_set_port` -/
def sa_set_port (sa : SA) (p : Nat) : SA :=
  { sa with port := p }

/-- `sa_cmp(a, b, SA_ALL)`: exact equality of family, IP and port. -/
def sa_cmp_all (a b : SA) : Bool :=
  a == b

/-- Modelled from the spec: `sa_hash(sa, SA_ADDR)` (from `re_sa`, not under
`src/`) computes a deterministic 32-bit hash over the IP address only —
"address bytes only, port excluded".  The concrete mixing function is a
byte fold; only determinism and port-independence matter to this module. -/
def sa_hash_addr (sa : SA) : Nat :=
  sa.ip.foldl (fun h b => (h * 31 + b % 256) % 4294967296) (sa.af % 4294967296)

/-! ## Candidate types (`enum cand_type`, from the project headers) -/

inductive CandType where
  | host
  | srflx
  | prflx
  | relay
deriving DecidableEq, Repr

/-- Modelled from the spec: the integer value of the candidate type
(`enum cand_type` is declared in a header not under `src/`; the enum
constants are consecutive starting at 0 in declaration order). -/
def CandType.val : CandType → Nat
  | .host => 0
  | .srflx => 1
  | .prflx => 2
  | .relay => 3

/-- Modelled from the spec: the fixed per-type preference constant used by
the priority formula — "Host highest, then PeerReflexive, then
ServerReflexive, then Relayed lowest, matching standard ICE preference
ordering, in range 0–126" (`ice_calc_prio` lives in a file of this
repository that is not under `src/`). -/
def type_prio : CandType → Nat
  | .host => 126
  | .prflx => 110
  | .srflx => 100
  | .relay => 0

/-- Modelled from the spec: `ice_calc_prio(type, local, compid)` returns the
32-bit priority `(type_preference << 24) | (local_preference << 8) |
(256 - component_id)`; `local` is a `uint16_t` and `compid` a `uint8_t`. -/
def ice_calc_prio (t : CandType) (lpref : Nat) (compid : Nat) : Nat :=
  ((type_prio t) <<< 24) ||| ((lpref % 65536) <<< 8) ||| (256 - compid % 256)

/-! ## Fixed-width lowercase hexadecimal rendering (`"%08x"`) -/

def hexDigit (n : Nat) : Char :=
  Nat.digitChar (n % 16)

/-- The eight hex digits of the 32-bit value `v`, most significant first. -/
def toHex8List (v : Nat) : List Char :=
  [hexDigit (v / 16 ^ 7), hexDigit (v / 16 ^ 6), hexDigit (v / 16 ^ 5),
   hexDigit (v / 16 ^ 4), hexDigit (v / 16 ^ 3), hexDigit (v / 16 ^ 2),
   hexDigit (v / 16), hexDigit v]

/-- `re_sdprintf(&s, "%08x", v)`: exactly eight lowercase hex digits of the
32-bit value `v`. -/
def toHex8 (v : Nat) : String :=
  String.mk (toHex8List v)

/-- The sixteen characters `"%x"` can produce. -/
def hexDigits : List Char :=
  "0123456789abcdef".toList

/-! ## Candidate records (`struct cand`) -/

/-- The `base` pointer of a candidate: NULL (as left by `mem_zalloc`, the
case of every remote candidate), the candidate itself
(`cand->base = cand` in `icem_lcand_add_base`), or another candidate of
the local list, identified by its position (`cand->base = mem_ref(base)`
in `icem_lcand_add`). -/
inductive BaseRef where
  | null
  | self
  | idx (i : Nat)
deriving DecidableEq, Repr

structure Cand where
  type : CandType
  compid : Nat
  prio : Nat
  transp : Nat
  addr : SA
  rel : Option SA
  foundation : String
  ifname : Option String
  base : BaseRef
  /-- reference count of the `mem_zalloc` block (1 on allocation;
  `mem_ref` increments it) -/
  nrefs : Nat
deriving DecidableEq, Repr

/-- The all-zero candidate produced by `mem_zalloc`. -/
def zeroCand : Cand :=
  { type := .host, compid := 0, prio := 0, transp := 0, addr := zeroSA,
    rel := none, foundation := "", ifname := none, base := .null, nrefs := 1 }

instance : Inhabited Cand := ⟨zeroCand⟩

/-- Foundation is a hash of IP address and candidate type
(`compute_foundation`, the pure value it stores on success). -/
def compute_foundation_str (addr : SA) (t : CandType) : String :=
  toHex8 (sa_hash_addr addr ^^^ t.val)

/-! ## The ICE media context (`struct icem`) and its components -/

structure IcemComp where
  compid : Nat
  lport : Nat
deriving DecidableEq, Repr

structure Icem where
  comps : List IcemComp
  lcandl : List Cand
  rcandl : List Cand
deriving DecidableEq, Repr

/-- Modelled from the spec: `icem_comp_find(icem, compid)` (in a file of
this repository not under `src/`) — "component lookup by id returning a
bound local port"; a NULL session holds no components, so the lookup
fails. -/
def icem_comp_find (icem : Option Icem) (compid : Nat) : Option IcemComp :=
  match icem with
  | none => none
  | some m => m.comps.find? (fun c => c.compid == compid)

/-! ## Allocation / randomness environment

The C code can fail on `mem_zalloc`, `re_sdprintf` and `str_dup` /
`pl_strdup` (resource exhaustion) and draws one random 32-bit value in
`icem_rcand_add_prflx`.  These external effects are supplied explicitly
as an oracle so that every error path of the source is reachable in the
model. -/

structure AllocEnv where
  zallocOk : Bool
  sdprintfOk : Bool
  strdupOk : Bool
  rand : Nat
deriving DecidableEq, Repr

/-- The environment in which every allocation succeeds. -/
def envOK : AllocEnv :=
  { zallocOk := true, sdprintfOk := true, strdupOk := true, rand := 0 }

/-- Modelled from the spec: `pl_strdup` (from `re_fmt`, not under `src/`)
copies the caller-supplied foundation verbatim; it fails with
`InvalidArgument` on an empty foundation ("Fails with InvalidArgument if
foundation is empty") and with `AllocationFailure` on exhaustion. -/
def pl_strdup (env : AllocEnv) (s : String) : Except Nat String :=
  if s.isEmpty then .error EINVAL
  else if env.strdupOk then .ok s
  else .error ENOMEM

/-! ## `cand_alloc`

The C function appends the zero-initialised candidate to `icem->lcandl`
first, then fills the fields, computes the foundation and duplicates the
interface name; on any failure it `mem_deref`s the candidate, whose
destructor `cand_destructor` unlinks it from the list again
(`list_unlink(&cand->le)`).  The model reproduces this shape: the
transient append followed by `List.eraseIdx` on the error path.

Result: `.inl (err, state)` on failure (non-zero `err`),
`.inr (state, index of the new candidate in `lcandl`)` on success. -/

/-- The accumulated error word of `cand_alloc`:
`err = compute_foundation(cand); if (ifname) err |= str_dup(..)`. -/
def alloc_err (env : AllocEnv) (ifname : Option String) : Nat :=
  (if env.sdprintfOk then 0 else ENOMEM) |||
  (match ifname with
   | none => 0
   | some _ => if env.strdupOk then 0 else ENOMEM)

def cand_alloc (env : AllocEnv) (icem : Option Icem) (ctype : CandType)
    (compid : Nat) (prio : Nat) (ifname : Option String) (transp : Nat)
    (addr : Option SA) : (Nat × Option Icem) ⊕ (Icem × Nat) :=
  match icem with
  | none => .inl (EINVAL, none)
  | some m =>
    if env.zallocOk = false then .inl (ENOMEM, some m)
    else
      -- list_append; fields set; sa_cpy; compute_foundation; str_dup
      let cand : Cand :=
        { zeroCand with
          type := ctype, compid := compid, prio := prio, transp := transp,
          addr := sa_cpy zeroSA addr,
          foundation := compute_foundation_str (sa_cpy zeroSA addr) ctype }
      let i := m.lcandl.length
      let m1 : Icem := { m with lcandl := m.lcandl ++ [cand] }
      if alloc_err env ifname ≠ 0 then
        -- mem_deref(cand): destructor unlinks the candidate again
        .inl (alloc_err env ifname, some { m1 with lcandl := m1.lcandl.eraseIdx i })
      else
        .inr ({ m1 with lcandl := m1.lcandl.set i { cand with ifname := ifname } }, i)

/-- `icem_lcand_add_base`: add a local host candidate.  Returns the error
code and the session state after the call. -/
def icem_lcand_add_base (env : AllocEnv) (icem : Option Icem) (compid : Nat)
    (lprio : Nat) (ifname : Option String) (transp : Nat)
    (addr : Option SA) : Nat × Option Icem :=
  match icem_comp_find icem compid with
  | none => (ENOENT, icem)
  | some comp =>
    match cand_alloc env icem .host compid (ice_calc_prio .host lprio compid)
        ifname transp addr with
    | .inl (err, icem1) => (err, icem1)
    | .inr (m1, i) =>
      -- the base is itself; sa_set_port(&cand->addr, comp->lport)
      let c := m1.lcandl.getD i zeroCand
      let c1 := { c with base := BaseRef.self, addr := sa_set_port c.addr comp.lport }
      (0, some { m1 with lcandl := m1.lcandl.set i c1 })

/-- `icem_lcand_add`: add a derived local candidate on top of `base`.
The base pointer is modelled as an index into `lcandl`; `none` models the
NULL pointer.  An out-of-range index models a dangling pointer, which is
undefined behaviour in the C source; the model maps it to `EINVAL` and no
theorem relies on that branch. -/
def icem_lcand_add (env : AllocEnv) (icem : Option Icem) (base : Option Nat)
    (ctype : CandType) (addr : Option SA) : Nat × Option Icem :=
  match base with
  | none => (EINVAL, icem)
  | some bi =>
    match icem with
    | none => (EINVAL, none)   -- cand_alloc rejects the NULL icem
    | some m =>
      match m.lcandl[bi]? with
      | none => (EINVAL, some m)
      | some b =>
        match cand_alloc env (some m) ctype b.compid
            (ice_calc_prio ctype 0 b.compid) b.ifname b.transp addr with
        | .inl (err, icem1) => (err, icem1)
        | .inr (m1, i) =>
          -- cand->base = mem_ref(base); sa_cpy(&cand->rel, &base->addr)
          let c := m1.lcandl.getD i zeroCand
          let c1 := { c with base := BaseRef.idx bi, rel := some b.addr }
          let l1 := (m1.lcandl.set i c1)
          let bc := l1.getD bi zeroCand
          let l2 := l1.set bi { bc with nrefs := bc.nrefs + 1 }
          (0, some { m1 with lcandl := l2 })

/-- `icem_rcand_add`: add a remote candidate with caller-supplied priority
and foundation.  The `struct pl *foundation` argument is modelled as
`Option String`, `none` standing for the NULL pointer checked on entry. -/
def icem_rcand_add (env : AllocEnv) (icem : Option Icem) (ctype : CandType)
    (compid : Nat) (prio : Nat) (addr : Option SA) (rel_addr : Option SA)
    (foundation : Option String) : Nat × Option Icem :=
  match icem, foundation with
  | none, _ => (EINVAL, icem)
  | some m, none => (EINVAL, some m)
  | some m, some fnd =>
    if env.zallocOk = false then (ENOMEM, some m)
    else
      let rcand : Cand :=
        { zeroCand with
          type := ctype, compid := compid, prio := prio,
          addr := sa_cpy zeroSA addr, rel := rel_addr }
      let i := m.rcandl.length
      let m1 : Icem := { m with rcandl := m.rcandl ++ [rcand] }
      match pl_strdup env fnd with
      | .error e =>
        -- mem_deref(rcand): destructor unlinks it from rcandl
        (e, some { m1 with rcandl := m1.rcandl.eraseIdx i })
      | .ok s =>
        (0, some { m1 with rcandl := m1.rcandl.set i { rcand with foundation := s } })

/-- Modelled from the spec: `rand_u32()` (from `re_sys`, not under `src/`)
returns one fresh random 32-bit value, supplied here by the oracle. -/
def rand_u32 (env : AllocEnv) : Nat :=
  env.rand % 4294967296

/-- `icem_rcand_add_prflx`: add a remote peer-reflexive candidate with a
random foundation.  The third component of the result models the `*rcp`
out-parameter: the index of the new candidate in `rcandl`. -/
def icem_rcand_add_prflx (env : AllocEnv) (icem : Option Icem) (compid : Nat)
    (prio : Nat) (addr : Option SA) : Nat × Option Icem × Option Nat :=
  match icem, addr with
  | none, _ => (EINVAL, icem, none)
  | some m, none => (EINVAL, some m, none)
  | some m, some a =>
    if env.zallocOk = false then (ENOMEM, some m, none)
    else
      let rcand : Cand :=
        { zeroCand with type := .prflx, compid := compid, prio := prio, addr := a }
      let i := m.rcandl.length
      let m1 : Icem := { m with rcandl := m.rcandl ++ [rcand] }
      -- err = re_sdprintf(&rcand->foundation, "%08x", rand_u32())
      if env.sdprintfOk = false then
        (ENOMEM, some { m1 with rcandl := m1.rcandl.eraseIdx i }, none)
      else
        let rcand1 := { rcand with foundation := toHex8 (rand_u32 env) }
        (0, some { m1 with rcandl := m1.rcandl.set i rcand1 }, some i)

/-- `icem_cand_find`: linear scan in insertion order; component id 0 is a
wildcard; the address, when given, must compare equal under
`sa_cmp(.., SA_ALL)`. -/
def icem_cand_find : List Cand → Nat → Option SA → Option Cand
  | [], _, _ => none
  | c :: cs, compid, addr =>
    if compid ≠ 0 ∧ c.compid ≠ compid then
      icem_cand_find cs compid addr
    else if (match addr with
             | none => false
             | some a => sa_cmp_all c.addr a = false) then
      icem_cand_find cs compid addr
    else
      some c

/-! ## Presentation (`icem_cand_print`, `icem_cands_debug`)

The `re_printf` output sink is modelled from the spec as an oracle
`pf : Nat → Nat` giving the error code of the k-th write (0 = success);
each `re_hprintf` call becomes one write of its fully formatted text
(`icem_cand_print`, invoked through the `%H` specifier with the same
sink, is folded into the text of the write that carries it). -/

/-- Modelled from the spec: `ice_cand_type2name` (not under `src/`) — the
short wire name of each candidate type. -/
def ice_cand_type2name : CandType → String
  | .host => "host"
  | .srflx => "srflx"
  | .prflx => "prflx"
  | .relay => "relay"

/-- `"%J"` on a socket address. -/
def sa_print (sa : SA) : String :=
  String.intercalate "." (sa.ip.map Nat.repr) ++ ":" ++ Nat.repr sa.port

/-- `icem_cand_print`: formats one candidate as `[ifname:]type:addr`. -/
def icem_cand_print (c : Cand) : String :=
  (match c.ifname with
   | none => ""
   | some ifn => ifn ++ ":")
  ++ ice_cand_type2name c.type ++ ":" ++ sa_print c.addr

/-- Text of the main per-candidate line of `icem_cands_debug`
(`"  \x7b%u\x7d fnd=%-2s prio=%08x %24H"`; the fixed-width padding of the
C format is presentation-only and not reproduced). -/
def debug_line (c : Cand) : String :=
  "  \x7b" ++ Nat.repr c.compid ++ "\x7d fnd=" ++ c.foundation
    ++ " prio=" ++ toHex8 c.prio ++ " " ++ icem_cand_print c

/-- Text of the optional related-address part (`" (rel-addr=%J)"`). -/
def debug_rel_line (c : Cand) : String :=
  " (rel-addr=" ++ (match c.rel with | none => "" | some r => sa_print r) ++ ")"

/-- One `re_hprintf` call: returns the sink's code for this write and the
state advanced by one write (call counter, transcript). -/
def hwrite (pf : Nat → Nat) (st : Nat × List String) (s : String) :
    Nat × (Nat × List String) :=
  (pf st.1, (st.1 + 1, st.2 ++ [s]))

/-- The `for (le = list_head(lst); le && !err; le = le->next)` loop of
`icem_cands_debug`: each iteration ORs the codes of its one to three
writes into `err`; the loop guard re-checks `err` before every
candidate. -/
def debug_loop (pf : Nat → Nat) : List Cand → Nat → Nat × List String →
    Nat × (Nat × List String)
  | [], err, st => (err, st)
  | c :: cs, err, st =>
    if err ≠ 0 then (err, st)
    else
      let (e1, st1) := hwrite pf st (debug_line c)
      let err1 := err ||| e1
      -- if (sa_isset(&cand->rel, SA_ADDR)) err |= re_hprintf(...)
      let (err2, st2) :=
        match c.rel with
        | none => (err1, st1)
        | some _ =>
          let (e2, st') := hwrite pf st1 (debug_rel_line c)
          (err1 ||| e2, st')
      let (e3, st3) := hwrite pf st2 "\n"
      debug_loop pf cs (err2 ||| e3) st3

/-- `icem_cands_debug`: header write (`" (%u)\n"`), then the loop.
Returns the error code handed back to the caller and the transcript of
sink writes. -/
def icem_cands_debug (pf : Nat → Nat) (lst : List Cand) : Nat × List String :=
  let (e0, st0) := hwrite pf (0, []) (" (" ++ Nat.repr lst.length ++ ")\n")
  let (err, st) := debug_loop pf lst e0 st0
  (err, st.2)

/-! ## Registry operation sequences

One `Op` is one call of a public insertion operation with arbitrary
arguments (and its allocation oracle); `runOps` drives a session, whose
component set is fixed at creation by the socket-binding layer, from
empty candidate collections through a sequence of calls. -/

inductive Op where
  | lcandAddBase (env : AllocEnv) (compid lprio : Nat) (ifname : Option String)
      (transp : Nat) (addr : Option SA)
  | lcandAdd (env : AllocEnv) (base : Option Nat) (ctype : CandType)
      (addr : Option SA)
  | rcandAdd (env : AllocEnv) (ctype : CandType) (compid prio : Nat)
      (addr rel_addr : Option SA) (foundation : Option String)
  | rcandAddPrflx (env : AllocEnv) (compid prio : Nat) (addr : Option SA)

def applyOp (m : Icem) : Op → Icem
  | .lcandAddBase env compid lprio ifname transp addr =>
    match (icem_lcand_add_base env (some m) compid lprio ifname transp addr).2 with
    | some m1 => m1
    | none => m
  | .lcandAdd env base ctype addr =>
    match (icem_lcand_add env (some m) base ctype addr).2 with
    | some m1 => m1
    | none => m
  | .rcandAdd env ctype compid prio addr rel_addr foundation =>
    match (icem_rcand_add env (some m) ctype compid prio addr rel_addr foundation).2 with
    | some m1 => m1
    | none => m
  | .rcandAddPrflx env compid prio addr =>
    match (icem_rcand_add_prflx env (some m) compid prio addr).2.1 with
    | some m1 => m1
    | none => m

/-- A fresh session: components bound by the collaborating layer, both
candidate collections empty. -/
def initIcem (comps : List IcemComp) : Icem :=
  { comps := comps, lcandl := [], rcandl := [] }

def runOps (comps : List IcemComp) (ops : List Op) : Icem :=
  ops.foldl applyOp (initIcem comps)

/-- The base-linkage invariant of a local candidate list: every candidate
is its own base (the candidates inserted by `icem_lcand_add_base`) or
holds a reference to a strictly earlier candidate of the list (those
inserted by `icem_lcand_add`) — never the NULL base left by
`mem_zalloc`, and never itself through an `idx` reference. -/
def baseInvL (l : List Cand) : Prop :=
  ∀ i (h : i < l.length),
    (l.get ⟨i, h⟩).base = BaseRef.self ∨
    ∃ j, j < i ∧ (l.get ⟨i, h⟩).base = BaseRef.idx j

def baseInv (m : Icem) : Prop :=
  baseInvL m.lcandl

/-! ## The matching predicate of `Find`, as the spec words it -/

/-- The spec's matching condition for `Find`: the component id matches
(a query id of 0 is a wildcard matching any stored id, a non-zero query
id only equal stored ids), and the address, when one is queried, is
exactly equal. -/
def findSpecMatch (compid : Nat) (addr : Option SA) (c : Cand) : Bool :=
  (compid == 0 || c.compid == compid) &&
  (match addr with
   | none => true
   | some a => c.addr == a)

/-- The candidate record that a successful `cand_alloc` leaves in the
local list. -/
def allocedCand (ctype : CandType) (compid prio : Nat) (ifname : Option String)
    (transp : Nat) (addr : Option SA) : Cand :=
  { zeroCand with
    type := ctype, compid := compid, prio := prio, transp := transp,
    addr := sa_cpy zeroSA addr,
    foundation := compute_foundation_str (sa_cpy zeroSA addr) ctype,
    ifname := ifname }


/-! ## The records each successful insertion stores -/

/-- The host candidate stored by a successful `icem_lcand_add_base`. -/
def hostCand (comp : IcemComp) (compid lprio : Nat) (ifname : Option String)
    (transp : Nat) (addr : Option SA) : Cand :=
  let c := allocedCand .host compid (ice_calc_prio .host lprio compid) ifname transp addr
  { c with base := BaseRef.self, addr := sa_set_port c.addr comp.lport }

/-- The derived candidate stored by a successful `icem_lcand_add` on top of
the base candidate `b` sitting at position `bi` of the local list. -/
def derivedCand (bi : Nat) (b : Cand) (ctype : CandType) (addr : Option SA) : Cand :=
  let c := allocedCand ctype b.compid (ice_calc_prio ctype 0 b.compid) b.ifname b.transp addr
  { c with base := BaseRef.idx bi, rel := some b.addr }

/-- The remote candidate stored by a successful `icem_rcand_add`. -/
def remoteCand (ctype : CandType) (compid prio : Nat) (addr rel_addr : Option SA)
    (fnd : String) : Cand :=
  { zeroCand with
    type := ctype, compid := compid, prio := prio,
    addr := sa_cpy zeroSA addr, rel := rel_addr, foundation := fnd }

/-- The peer-reflexive remote candidate stored by a successful
`icem_rcand_add_prflx`. -/
def prflxCand (env : AllocEnv) (compid prio : Nat) (a : SA) : Cand :=
  { zeroCand with
    type := .prflx, compid := compid, prio := prio, addr := a,
    foundation := toHex8 (rand_u32 env) }


/-! ## Concrete sample data (used by closed witness theorems) -/

/-- 192.0.2.1:4000 (IPv4, family value 2 = AF_INET). -/
def saA : SA := { af := 2, ip := [192, 0, 2, 1], port := 4000 }

/-- The same IP address as `saA` under a different port. -/
def saB : SA := { af := 2, ip := [192, 0, 2, 1], port := 9999 }

/-- A fresh session with one component (id 1, bound local port 5000). -/
def icem0 : Icem := initIcem [{ compid := 1, lport := 5000 }]

/-- An environment whose `mem_zalloc` fails. -/
def envNoMem : AllocEnv :=
  { zallocOk := false, sdprintfOk := true, strdupOk := true, rand := 0 }

/-- An output sink whose second write fails with code 1 and whose third
write fails with code 2. -/
def pfCex : Nat → Nat :=
  fun k => if k = 1 then 1 else if k = 2 then 2 else 0

/-- A candidate carrying a related address, so that its debug output emits
three writes. -/
def candRel : Cand := { zeroCand with rel := some saA }

/-- The host candidate that `icem_lcand_add_base envOK (some icem0) 1 65535
none 0 (some saA)` stores. -/
def cand0 : Cand := hostCand { compid := 1, lport := 5000 } 1 65535 none 0 (some saA)

/-- `icem0` after that host insertion. -/
def icem0h : Icem := { icem0 with lcandl := [cand0] }

/-- `icem0h` after deriving a server-reflexive candidate from `cand0`. -/
def icem0hd : Icem :=
  { icem0 with
    lcandl := [{ cand0 with nrefs := cand0.nrefs + 1 },
               derivedCand 0 cand0 .srflx (some saB)] }

/-! ## List helper lemmas -/

theorem eraseIdx_append_len {α : Type} (l : List α) (c : α) :
    (l ++ [c]).eraseIdx l.length = l := by
  induction l with
  | nil => rfl
  | cons a t ih => simp [List.eraseIdx, ih]

theorem set_append_len {α : Type} (l : List α) (c c' : α) :
    (l ++ [c]).set l.length c' = l ++ [c'] := by
  induction l with
  | nil => rfl
  | cons a t ih => simp [List.set, ih]

theorem getD_append_len {α : Type} (l : List α) (c d : α) :
    (l ++ [c]).getD l.length d = c := by
  induction l with
  | nil => rfl
  | cons a t ih =>
    rw [List.cons_append, List.length_cons, List.getD_cons_succ]
    exact ih

theorem getD_append_lt {α : Type} (l t : List α) (i : Nat) (d : α)
    (h : i < l.length) : (l ++ t).getD i d = l.getD i d := by
  induction l generalizing i with
  | nil => exact absurd h (by simp)
  | cons a s ih =>
    cases i with
    | zero => rfl
    | succ j =>
      rw [List.cons_append, List.getD_cons_succ, List.getD_cons_succ]
      exact ih j (Nat.lt_of_succ_lt_succ (by simpa using h))

/-! ## Structural lemmas about `cand_alloc` -/

/-- On any failure, `cand_alloc` reports a non-zero error and leaves the
session exactly as it was: the transient `list_append` is undone by the
destructor's `list_unlink`. -/
theorem cand_alloc_inl {env : AllocEnv} {m : Icem} {ctype : CandType}
    {compid prio : Nat} {ifname : Option String} {transp : Nat}
    {addr : Option SA} {err : Nat} {s : Option Icem}
    (h : cand_alloc env (some m) ctype compid prio ifname transp addr = .inl (err, s)) :
    err ≠ 0 ∧ s = some m := by
  simp only [cand_alloc] at h
  by_cases hz : env.zallocOk = false
  · rw [if_pos hz] at h
    injection h with h'
    injection h' with h1 h2
    exact ⟨h1 ▸ (by decide), h2.symm⟩
  · rw [if_neg hz] at h
    by_cases he : alloc_err env ifname ≠ 0
    · rw [if_pos he] at h
      injection h with h'
      injection h' with h1 h2
      refine ⟨h1 ▸ he, ?_⟩
      rw [← h2, eraseIdx_append_len]
    · rw [if_neg he] at h
      exact absurd h (by simp)

/-- On success, `cand_alloc` appends exactly one fully initialised
candidate to the local list and touches nothing else. -/
theorem cand_alloc_inr {env : AllocEnv} {m : Icem} {ctype : CandType}
    {compid prio : Nat} {ifname : Option String} {transp : Nat}
    {addr : Option SA} {m1 : Icem} {i : Nat}
    (h : cand_alloc env (some m) ctype compid prio ifname transp addr = .inr (m1, i)) :
    i = m.lcandl.length ∧
    m1.comps = m.comps ∧ m1.rcandl = m.rcandl ∧
    m1.lcandl = m.lcandl ++ [allocedCand ctype compid prio ifname transp addr] := by
  simp only [cand_alloc] at h
  by_cases hz : env.zallocOk = false
  · rw [if_pos hz] at h
    exact absurd h (by simp)
  · rw [if_neg hz] at h
    by_cases he : alloc_err env ifname ≠ 0
    · rw [if_pos he] at h
      exact absurd h (by simp)
    · rw [if_neg he] at h
      injection h with h'
      injection h' with h1 h2
      subst h2
      refine ⟨rfl, ?_⟩
      rw [← h1]
      refine ⟨rfl, rfl, ?_⟩
      rw [set_append_len]
      rfl

/-! ## Success and failure shapes of the four insertion operations -/

theorem icem_lcand_add_base_ok {env : AllocEnv} {m : Icem} {compid lprio : Nat}
    {ifname : Option String} {transp : Nat} {addr : Option SA} {m' : Icem}
    {comp : IcemComp}
    (hc : icem_comp_find (some m) compid = some comp)
    (h : icem_lcand_add_base env (some m) compid lprio ifname transp addr = (0, some m')) :
    m'.comps = m.comps ∧ m'.rcandl = m.rcandl ∧
    m'.lcandl = m.lcandl ++ [hostCand comp compid lprio ifname transp addr] := by
  cases hca : cand_alloc env (some m) .host compid (ice_calc_prio .host lprio compid)
      ifname transp addr with
  | inl p =>
    obtain ⟨err, s⟩ := p
    simp only [icem_lcand_add_base, hc, hca] at h
    injection h with h1 h2
    exact absurd h1 (cand_alloc_inl hca).1
  | inr p =>
    obtain ⟨m1, i⟩ := p
    simp only [icem_lcand_add_base, hc, hca] at h
    obtain ⟨hi, hcomps, hrc, hlc⟩ := cand_alloc_inr hca
    injection h with h1 h2
    injection h2 with h2
    rw [← h2]
    subst hi
    rw [hlc, hcomps, hrc]
    refine ⟨rfl, rfl, ?_⟩
    rw [getD_append_len, set_append_len]
    rfl

theorem icem_lcand_add_base_err {env : AllocEnv} {m : Icem} {compid lprio : Nat}
    {ifname : Option String} {transp : Nat} {addr : Option SA}
    (h : (icem_lcand_add_base env (some m) compid lprio ifname transp addr).1 ≠ 0) :
    (icem_lcand_add_base env (some m) compid lprio ifname transp addr).2 = some m := by
  cases hc : icem_comp_find (some m) compid with
  | none => simp only [icem_lcand_add_base, hc]
  | some comp =>
    cases hca : cand_alloc env (some m) .host compid (ice_calc_prio .host lprio compid)
        ifname transp addr with
    | inl p =>
      obtain ⟨err, s⟩ := p
      simp only [icem_lcand_add_base, hc, hca]
      exact (cand_alloc_inl hca).2
    | inr p =>
      obtain ⟨m1, i⟩ := p
      simp only [icem_lcand_add_base, hc, hca] at h
      exact absurd rfl h

theorem icem_lcand_add_ok {env : AllocEnv} {m : Icem} {bi : Nat}
    {ctype : CandType} {addr : Option SA} {m' : Icem} {b : Cand}
    (hb : m.lcandl[bi]? = some b)
    (h : icem_lcand_add env (some m) (some bi) ctype addr = (0, some m')) :
    m'.comps = m.comps ∧ m'.rcandl = m.rcandl ∧
    m'.lcandl = (m.lcandl.set bi { b with nrefs := b.nrefs + 1 })
      ++ [derivedCand bi b ctype addr] := by
  have hbi : bi < m.lcandl.length := by
    have := List.getElem?_eq_some.mp hb
    exact this.1
  cases hca : cand_alloc env (some m) ctype b.compid (ice_calc_prio ctype 0 b.compid)
      b.ifname b.transp addr with
  | inl p =>
    obtain ⟨err, s⟩ := p
    simp only [icem_lcand_add, hb, hca] at h
    injection h with h1 h2
    exact absurd h1 (cand_alloc_inl hca).1
  | inr p =>
    obtain ⟨m1, i⟩ := p
    simp only [icem_lcand_add, hb, hca] at h
    obtain ⟨hi, hcomps, hrc, hlc⟩ := cand_alloc_inr hca
    injection h with h1 h2
    injection h2 with h2
    rw [← h2]
    subst hi
    rw [hlc, hcomps, hrc]
    refine ⟨rfl, rfl, ?_⟩
    rw [getD_append_len, set_append_len]
    rw [getD_append_lt _ _ _ _ hbi]
    rw [List.getD_eq_getElem?_getD, hb]
    rw [List.set_append_left _ _ hbi]
    rfl

theorem icem_lcand_add_err {env : AllocEnv} {m : Icem} {base : Option Nat}
    {ctype : CandType} {addr : Option SA}
    (h : (icem_lcand_add env (some m) base ctype addr).1 ≠ 0) :
    (icem_lcand_add env (some m) base ctype addr).2 = some m := by
  cases base with
  | none => rfl
  | some bi =>
    cases hb : m.lcandl[bi]? with
    | none => simp only [icem_lcand_add, hb]
    | some b =>
      cases hca : cand_alloc env (some m) ctype b.compid (ice_calc_prio ctype 0 b.compid)
          b.ifname b.transp addr with
      | inl p =>
        obtain ⟨err, s⟩ := p
        simp only [icem_lcand_add, hb, hca]
        exact (cand_alloc_inl hca).2
      | inr p =>
        obtain ⟨m1, i⟩ := p
        simp only [icem_lcand_add, hb, hca] at h
        exact absurd rfl h

theorem icem_rcand_add_ok {env : AllocEnv} {m : Icem} {ctype : CandType}
    {compid prio : Nat} {addr rel_addr : Option SA} {fnd : String} {m' : Icem}
    (h : icem_rcand_add env (some m) ctype compid prio addr rel_addr (some fnd)
      = (0, some m')) :
    m'.comps = m.comps ∧ m'.lcandl = m.lcandl ∧ fnd.isEmpty = false ∧
    m'.rcandl = m.rcandl ++ [remoteCand ctype compid prio addr rel_addr fnd] := by
  by_cases hz : env.zallocOk = false
  · simp only [icem_rcand_add, if_pos hz] at h
    injection h with h1 h2
    exact absurd h1.symm (by decide)
  · cases hsd : pl_strdup env fnd with
    | error e =>
      simp only [icem_rcand_add, if_neg hz, hsd] at h
      injection h with h1 h2
      have : e ≠ 0 := by
        simp only [pl_strdup] at hsd
        by_cases he : fnd.isEmpty
        · rw [if_pos he] at hsd
          injection hsd with hsd
          rw [← hsd]
          decide
        · rw [if_neg he] at hsd
          by_cases hst : env.strdupOk = true
          · rw [if_pos hst] at hsd
            exact absurd hsd (by simp)
          · rw [if_neg hst] at hsd
            injection hsd with hsd
            rw [← hsd]
            decide
      exact absurd h1 this
    | ok s =>
      have hse : fnd.isEmpty = false ∧ s = fnd := by
        simp only [pl_strdup] at hsd
        by_cases he : fnd.isEmpty
        · rw [if_pos he] at hsd
          exact absurd hsd (by simp)
        · rw [if_neg he] at hsd
          by_cases hst : env.strdupOk = true
          · rw [if_pos hst] at hsd
            injection hsd with hsd
            exact ⟨Bool.of_not_eq_true he, hsd.symm⟩
          · rw [if_neg hst] at hsd
            exact absurd hsd (by simp)
      simp only [icem_rcand_add, if_neg hz, hsd] at h
      injection h with h1 h2
      injection h2 with h2
      rw [← h2]
      refine ⟨rfl, rfl, hse.1, ?_⟩
      rw [set_append_len]
      rw [hse.2]
      rfl

theorem icem_rcand_add_err {env : AllocEnv} {m : Icem} {ctype : CandType}
    {compid prio : Nat} {addr rel_addr : Option SA} {foundation : Option String}
    (h : (icem_rcand_add env (some m) ctype compid prio addr rel_addr foundation).1 ≠ 0) :
    (icem_rcand_add env (some m) ctype compid prio addr rel_addr foundation).2 = some m := by
  cases foundation with
  | none => rfl
  | some fnd =>
    by_cases hz : env.zallocOk = false
    · simp only [icem_rcand_add, if_pos hz]
    · cases hsd : pl_strdup env fnd with
      | error e =>
        simp only [icem_rcand_add, if_neg hz, hsd]
        rw [eraseIdx_append_len]
      | ok s =>
        simp only [icem_rcand_add, if_neg hz, hsd] at h
        exact absurd rfl h

theorem icem_rcand_add_prflx_ok {env : AllocEnv} {m : Icem} {compid prio : Nat}
    {a : SA} {m' : Icem} {rcp : Option Nat}
    (h : icem_rcand_add_prflx env (some m) compid prio (some a) = (0, some m', rcp)) :
    m'.comps = m.comps ∧ m'.lcandl = m.lcandl ∧ rcp = some m.rcandl.length ∧
    m'.rcandl = m.rcandl ++ [prflxCand env compid prio a] := by
  by_cases hz : env.zallocOk = false
  · simp only [icem_rcand_add_prflx, if_pos hz] at h
    injection h with h1 h2
    exact absurd h1.symm (by decide)
  · by_cases hsd : env.sdprintfOk = false
    · simp only [icem_rcand_add_prflx, if_neg hz, if_pos hsd] at h
      injection h with h1 h2
      exact absurd h1.symm (by decide)
    · simp only [icem_rcand_add_prflx, if_neg hz, if_neg hsd] at h
      injection h with h1 h2
      injection h2 with h2 h3
      injection h2 with h2
      rw [← h2, ← h3]
      refine ⟨rfl, rfl, rfl, ?_⟩
      rw [set_append_len]
      rfl

theorem icem_rcand_add_prflx_err {env : AllocEnv} {m : Icem} {compid prio : Nat}
    {addr : Option SA}
    (h : (icem_rcand_add_prflx env (some m) compid prio addr).1 ≠ 0) :
    (icem_rcand_add_prflx env (some m) compid prio addr).2.1 = some m := by
  cases addr with
  | none => rfl
  | some a =>
    by_cases hz : env.zallocOk = false
    · simp only [icem_rcand_add_prflx, if_pos hz]
    · by_cases hsd : env.sdprintfOk = false
      · simp only [icem_rcand_add_prflx, if_neg hz, if_pos hsd]
        rw [eraseIdx_append_len]
      · simp only [icem_rcand_add_prflx, if_neg hz, if_neg hsd] at h
        exact absurd rfl h

/-! ## Preservation of the base-linkage invariant -/

theorem baseInvL_append_self {l : List Cand} {c : Cand}
    (hl : baseInvL l) (hc : c.base = BaseRef.self) : baseInvL (l ++ [c]) := by
  intro i h
  rw [List.get_eq_getElem]
  by_cases hi : i < l.length
  · rw [List.getElem_append_left hi]
    have := hl i hi
    rw [List.get_eq_getElem] at this
    exact this
  · have hlen : i = l.length := by
      have : i < l.length + 1 := by simpa using h
      omega
    subst hlen
    rw [List.getElem_append_right (le_refl _)]
    left
    simpa using hc

theorem baseInvL_set_append {l : List Cand} {bi : Nat} {b b' c : Cand}
    (hl : baseInvL l) (hb : l[bi]? = some b)
    (hb' : b'.base = b.base) (hc : c.base = BaseRef.idx bi) :
    baseInvL (l.set bi b' ++ [c]) := by
  have hbi : bi < l.length := (List.getElem?_eq_some.mp hb).1
  intro i h
  rw [List.get_eq_getElem]
  have hsl : (l.set bi b').length = l.length := by simp
  by_cases hi : i < l.length
  · rw [List.getElem_append_left (by simpa [hsl] using hi)]
    by_cases he : bi = i
    · subst he
      rw [List.getElem_set_self (by simpa [hsl] using hi)]
      have hgb : l[bi] = b := by
        have := List.getElem?_eq_some.mp hb
        obtain ⟨_, hg⟩ := this
        exact hg
      have := hl bi hbi
      rw [List.get_eq_getElem, hgb] at this
      rw [hb', ← hgb]
      simpa [hgb] using this
    · rw [List.getElem_set_ne he]
      have := hl i hi
      rw [List.get_eq_getElem] at this
      exact this
  · have hlen : i = l.length := by
      have : i < l.length + 1 := by simpa [hsl] using h
      omega
    subst hlen
    rw [List.getElem_append_right (by simp [hsl])]
    right
    exact ⟨bi, hbi, by simpa [hsl] using hc⟩

/-- Every single registry operation leaves the local list untouched,
appends one self-based candidate, or appends one candidate referring to a
strictly earlier position while only bumping that base's reference
count. -/
theorem applyOp_lcandl (m : Icem) (op : Op) :
    (applyOp m op).lcandl = m.lcandl ∨
    (∃ c, c.base = BaseRef.self ∧ (applyOp m op).lcandl = m.lcandl ++ [c]) ∨
    (∃ bi b b' c, m.lcandl[bi]? = some b ∧ b'.base = b.base ∧
       c.base = BaseRef.idx bi ∧
       (applyOp m op).lcandl = m.lcandl.set bi b' ++ [c]) := by
  cases op with
  | lcandAddBase env compid lprio ifname transp addr =>
    cases hc : icem_comp_find (some m) compid with
    | none =>
      left
      simp only [applyOp, icem_lcand_add_base, hc]
    | some comp =>
      cases hca : cand_alloc env (some m) .host compid
          (ice_calc_prio .host lprio compid) ifname transp addr with
      | inl p =>
        obtain ⟨err, s⟩ := p
        obtain ⟨hne, hs⟩ := cand_alloc_inl hca
        subst hs
        left
        simp only [applyOp, icem_lcand_add_base, hc, hca]
      | inr p =>
        obtain ⟨m1, i⟩ := p
        obtain ⟨hi, hcomps, hrc, hlc⟩ := cand_alloc_inr hca
        right; left
        refine ⟨hostCand comp compid lprio ifname transp addr, rfl, ?_⟩
        simp only [applyOp, icem_lcand_add_base, hc, hca]
        subst hi
        rw [hlc, getD_append_len, set_append_len]
        rfl
  | lcandAdd env base ctype addr =>
    cases base with
    | none =>
      left
      rfl
    | some bi =>
      cases hb : m.lcandl[bi]? with
      | none =>
        left
        simp only [applyOp, icem_lcand_add, hb]
      | some b =>
        cases hca : cand_alloc env (some m) ctype b.compid
            (ice_calc_prio ctype 0 b.compid) b.ifname b.transp addr with
        | inl p =>
          obtain ⟨err, s⟩ := p
          obtain ⟨hne, hs⟩ := cand_alloc_inl hca
          subst hs
          left
          simp only [applyOp, icem_lcand_add, hb, hca]
        | inr p =>
          obtain ⟨m1, i⟩ := p
          obtain ⟨hi, hcomps, hrc, hlc⟩ := cand_alloc_inr hca
          have hbi : bi < m.lcandl.length := (List.getElem?_eq_some.mp hb).1
          right; right
          refine ⟨bi, b, { b with nrefs := b.nrefs + 1 },
            derivedCand bi b ctype addr, hb, rfl, rfl, ?_⟩
          simp only [applyOp, icem_lcand_add, hb, hca]
          subst hi
          rw [hlc, getD_append_len, set_append_len,
            getD_append_lt _ _ _ _ hbi, List.getD_eq_getElem?_getD, hb,
            List.set_append_left _ _ hbi]
          rfl
  | rcandAdd env ctype compid prio addr rel_addr foundation =>
    left
    cases foundation with
    | none => rfl
    | some fnd =>
      by_cases hz : env.zallocOk = false
      · simp only [applyOp, icem_rcand_add, if_pos hz]
      · cases hsd : pl_strdup env fnd with
        | error e => simp only [applyOp, icem_rcand_add, if_neg hz, hsd]
        | ok s => simp only [applyOp, icem_rcand_add, if_neg hz, hsd]
  | rcandAddPrflx env compid prio addr =>
    left
    cases addr with
    | none => rfl
    | some a =>
      by_cases hz : env.zallocOk = false
      · simp only [applyOp, icem_rcand_add_prflx, if_pos hz]
      · by_cases hsd : env.sdprintfOk = false
        · simp only [applyOp, icem_rcand_add_prflx, if_neg hz, if_pos hsd]
        · simp only [applyOp, icem_rcand_add_prflx, if_neg hz, if_neg hsd]

theorem baseInv_applyOp {m : Icem} {op : Op} (h : baseInv m) :
    baseInv (applyOp m op) := by
  rcases applyOp_lcandl m op with h0 | ⟨c, hc, hl⟩ | ⟨bi, b, b', c, hb, hb', hc, hl⟩
  · unfold baseInv at h ⊢
    rw [h0]
    exact h
  · unfold baseInv at h ⊢
    rw [hl]
    exact baseInvL_append_self h hc
  · unfold baseInv at h ⊢
    rw [hl]
    exact baseInvL_set_append h hb hb' hc

theorem runOps_baseInv (comps : List IcemComp) (ops : List Op) :
    baseInv (runOps comps ops) := by
  suffices hgen : ∀ (l : List Op) (m : Icem), baseInv m → baseInv (l.foldl applyOp m) by
    refine hgen ops (initIcem comps) ?_
    intro i hi
    exact absurd hi (by simp [initIcem])
  intro l
  induction l with
  | nil =>
    intro m hm
    exact hm
  | cons op rest ih =>
    intro m hm
    exact ih _ (baseInv_applyOp hm)

/-! ## Behaviour of the debug formatter -/

theorem or_code {a b e : Nat} (ha : a = 0 ∨ a = e) (hb : b = 0 ∨ b = e) :
    a ||| b = 0 ∨ a ||| b = e := by
  rcases ha with rfl | rfl <;> rcases hb with rfl | rfl <;>
    simp [Nat.zero_or, Nat.or_zero, Nat.or_self]

/-- The loop guard `le && !err` re-checks the error before every candidate:
once `err` is set, no further candidate is formatted and the state is
final. -/
theorem debug_loop_stop (pf : Nat → Nat) (lst : List Cand) (err : Nat)
    (st : Nat × List String) (h : err ≠ 0) :
    debug_loop pf lst err st = (err, st) := by
  cases lst with
  | nil => rfl
  | cons c cs => simp only [debug_loop, if_pos h]

/-- With a sink that never fails, the loop never fails. -/
theorem debug_loop_ok (pf : Nat → Nat) (hpf : ∀ k, pf k = 0) (lst : List Cand) :
    ∀ st, (debug_loop pf lst 0 st).1 = 0 := by
  induction lst with
  | nil =>
    intro st
    rfl
  | cons c cs ih =>
    intro st
    cases hrel : c.rel with
    | none => simp [debug_loop, hwrite, hpf, hrel, Nat.zero_or, ih]
    | some r => simp [debug_loop, hwrite, hrel, hpf, Nat.zero_or, ih]

/-- With a sink whose only failure code is `e`, the accumulated error word
stays in `{0, e}`. -/
theorem debug_loop_code (pf : Nat → Nat) (e : Nat)
    (hpf : ∀ k, pf k = 0 ∨ pf k = e) (lst : List Cand) :
    ∀ err st, err = 0 ∨ err = e →
      (debug_loop pf lst err st).1 = 0 ∨ (debug_loop pf lst err st).1 = e := by
  induction lst with
  | nil =>
    intro err st h
    exact h
  | cons c cs ih =>
    intro err st h
    by_cases herr : err ≠ 0
    · rw [debug_loop_stop _ _ _ _ herr]
      exact h
    · push_neg at herr
      subst herr
      cases hrel : c.rel with
      | none =>
        simp only [debug_loop, hwrite, hrel, ne_eq, not_true_eq_false, if_neg,
          not_false_eq_true]
        exact ih _ _ (or_code (or_code (Or.inl rfl) (hpf st.1)) (hpf (st.1 + 1)))
      | some r =>
        simp only [debug_loop, hwrite, hrel, ne_eq, not_true_eq_false, if_neg,
          not_false_eq_true]
        exact ih _ _ (or_code (or_code (or_code (Or.inl rfl) (hpf st.1))
          (hpf (st.1 + 1))) (hpf (st.1 + 1 + 1)))

/-! ## Auxiliary facts about the hexadecimal rendering -/

theorem hexDigit_mem (n : Nat) : hexDigit n ∈ hexDigits := by
  rw [hexDigit]
  have hlt : n % 16 < 16 := Nat.mod_lt _ (by norm_num)
  generalize hg : n % 16 = k at hlt ⊢
  interval_cases k <;> decide

theorem toHex8_mem_hexDigits (v : Nat) :
    ∀ ch ∈ (toHex8 v).toList, ch ∈ hexDigits := by
  intro ch hch
  have hl : (toHex8 v).toList = toHex8List v := rfl
  rw [hl, toHex8List] at hch
  simp only [List.mem_cons, List.not_mem_nil, or_false] at hch
  rcases hch with rfl | rfl | rfl | rfl | rfl | rfl | rfl | rfl
  all_goals exact hexDigit_mem _

/-! ## The claims -/

/-- C1: every local candidate insertion stores the 32-bit priority
`(type_preference << 24) | (local_preference << 8) | (256 - component_id)`
with fixed per-type preference constants in 0–126, and a derived local
candidate (added via `icem_lcand_add`) uses local preference 0 in this
formula regardless of the base candidate's original local preference. -/
theorem claim_C1 :
    (∀ t, type_prio t ≤ 126) ∧
    (∀ env m compid lprio ifname transp addr m' comp,
      icem_comp_find (some m) compid = some comp →
      icem_lcand_add_base env (some m) compid lprio ifname transp addr = (0, some m') →
      ∃ c, m'.lcandl = m.lcandl ++ [c] ∧
        c.prio = ((type_prio .host <<< 24) ||| ((lprio % 65536) <<< 8)
          ||| (256 - compid % 256))) ∧
    (∀ env m bi b ctype addr m',
      m.lcandl[bi]? = some b →
      icem_lcand_add env (some m) (some bi) ctype addr = (0, some m') →
      ∃ c, m'.lcandl = m.lcandl.set bi { b with nrefs := b.nrefs + 1 } ++ [c] ∧
        c.prio = ((type_prio ctype <<< 24) ||| ((0 % 65536) <<< 8)
          ||| (256 - b.compid % 256))) := by
  refine ⟨?_, ?_, ?_⟩
  · intro t
    cases t <;> decide
  · intro env m compid lprio ifname transp addr m' comp hc h
    obtain ⟨_, _, hlc⟩ := icem_lcand_add_base_ok hc h
    exact ⟨_, hlc, rfl⟩
  · intro env m bi b ctype addr m' hb h
    obtain ⟨_, _, hlc⟩ := icem_lcand_add_ok hb h
    exact ⟨_, hlc, rfl⟩

/-- Witness for C1: a concrete host insertion (component 1, local
preference 65535) stores priority `0x7EFFFFFF`. -/
theorem claim_C1_witness :
    ∃ c, icem0h.lcandl = icem0.lcandl ++ [c] ∧
      c.prio = ((type_prio .host <<< 24) ||| ((65535 % 65536) <<< 8)
        ||| (256 - 1 % 256)) :=
  claim_C1.2.1 envOK icem0 1 65535 none 0 (some saA) icem0h
    { compid := 1, lport := 5000 } (by decide) (by decide)

/-- C2: the foundation of a locally constructed candidate is a
deterministic hash of the IP address bytes only (port excluded), XORed
with the integer value of the candidate type, rendered as exactly eight
lowercase hexadecimal digits; computing it twice for the same
(address, type) pair yields identical output (it is a pure function of
those two inputs alone). -/
theorem claim_C2 :
    (∀ sa1 sa2 t, sa1.af = sa2.af → sa1.ip = sa2.ip →
      compute_foundation_str sa1 t = compute_foundation_str sa2 t) ∧
    (∀ sa t, compute_foundation_str sa t = toHex8 (sa_hash_addr sa ^^^ t.val)) ∧
    (∀ sa t, (compute_foundation_str sa t).length = 8) ∧
    (∀ sa t, ∀ ch ∈ (compute_foundation_str sa t).toList, ch ∈ hexDigits) := by
  refine ⟨?_, fun sa t => rfl, fun sa t => rfl, ?_⟩
  · intro sa1 sa2 t h1 h2
    simp only [compute_foundation_str, sa_hash_addr, h1, h2]
  · intro sa t
    exact toHex8_mem_hexDigits _

/-- Witness for C2: two addresses sharing IP but differing in port get the
same foundation. -/
theorem claim_C2_witness :
    saA.af = saB.af ∧ saA.ip = saB.ip ∧ saA.port ≠ saB.port ∧
    compute_foundation_str saA CandType.host = compute_foundation_str saB CandType.host :=
  ⟨rfl, rfl, by decide, claim_C2.1 saA saB .host rfl rfl⟩

/-- C3: `icem_rcand_add` fails with `EINVAL` when the caller-supplied
foundation is absent or empty, and otherwise stores the caller-supplied
priority and foundation verbatim, recomputing neither.  (The empty-string
case assumes the allocation of the record itself succeeds; under resource
exhaustion the C code reports `ENOMEM` before it ever looks at the
foundation.) -/
theorem claim_C3 :
    (∀ env m ctype compid prio addr rel_addr,
      icem_rcand_add env (some m) ctype compid prio addr rel_addr none
        = (EINVAL, some m)) ∧
    (∀ env m ctype compid prio addr rel_addr,
      env.zallocOk = true →
      icem_rcand_add env (some m) ctype compid prio addr rel_addr (some "")
        = (EINVAL, some m)) ∧
    (∀ env m ctype compid prio addr rel_addr fnd m',
      icem_rcand_add env (some m) ctype compid prio addr rel_addr (some fnd)
        = (0, some m') →
      m'.rcandl = m.rcandl ++ [remoteCand ctype compid prio addr rel_addr fnd] ∧
      (remoteCand ctype compid prio addr rel_addr fnd).prio = prio ∧
      (remoteCand ctype compid prio addr rel_addr fnd).foundation = fnd) := by
  refine ⟨fun env m ctype compid prio addr rel_addr => rfl, ?_, ?_⟩
  · intro env m ctype compid prio addr rel_addr hz
    have hps : pl_strdup env "" = .error EINVAL := rfl
    simp only [icem_rcand_add, hps]
    rw [if_neg (by simp [hz])]
    rw [eraseIdx_append_len]
  · intro env m ctype compid prio addr rel_addr fnd m' h
    obtain ⟨_, _, _, hrc⟩ := icem_rcand_add_ok h
    exact ⟨hrc, rfl, rfl⟩

/-- Witness for C3: adding a remote candidate with an empty foundation
fails with `EINVAL` and changes nothing. -/
theorem claim_C3_witness :
    icem_rcand_add envOK (some icem0) CandType.host 1 5 none none (some "")
      = (EINVAL, some icem0) :=
  claim_C3.2.1 envOK icem0 .host 1 5 none none rfl

/-- C4: any insertion operation that returns an error leaves the session —
both candidate collections — exactly as it was (the transiently appended
record is unlinked again by the destructor on the failure path). -/
theorem claim_C4 :
    (∀ env m compid lprio ifname transp addr,
      (icem_lcand_add_base env (some m) compid lprio ifname transp addr).1 ≠ 0 →
      (icem_lcand_add_base env (some m) compid lprio ifname transp addr).2 = some m) ∧
    (∀ env m base ctype addr,
      (icem_lcand_add env (some m) base ctype addr).1 ≠ 0 →
      (icem_lcand_add env (some m) base ctype addr).2 = some m) ∧
    (∀ env m ctype compid prio addr rel_addr foundation,
      (icem_rcand_add env (some m) ctype compid prio addr rel_addr foundation).1 ≠ 0 →
      (icem_rcand_add env (some m) ctype compid prio addr rel_addr foundation).2
        = some m) ∧
    (∀ env m compid prio addr,
      (icem_rcand_add_prflx env (some m) compid prio addr).1 ≠ 0 →
      (icem_rcand_add_prflx env (some m) compid prio addr).2.1 = some m) :=
  ⟨fun _ _ _ _ _ _ _ h => icem_lcand_add_base_err h,
   fun _ _ _ _ _ h => icem_lcand_add_err h,
   fun _ _ _ _ _ _ _ _ h => icem_rcand_add_err h,
   fun _ _ _ _ _ h => icem_rcand_add_prflx_err h⟩

/-- Witness for C4: a host insertion that fails on `mem_zalloc` leaves the
session unchanged. -/
theorem claim_C4_witness :
    (icem_lcand_add_base envNoMem (some icem0) 1 0 none 0 (some saA)).2 = some icem0 :=
  claim_C4.1 envNoMem icem0 1 0 none 0 (some saA) (by decide)

/-- C5: a successful `icem_lcand_add` appends a candidate that copies the
base's component id, interface name and transport, sets `related_address`
to the base's address, and holds a counted reference on the base (the
base's slot keeps its fields but its reference count grows by one); the
operation fails with `EINVAL` when the base is absent. -/
theorem claim_C5 :
    (∀ env icem ctype addr,
      icem_lcand_add env icem none ctype addr = (EINVAL, icem)) ∧
    (∀ env m bi b ctype addr m',
      m.lcandl[bi]? = some b →
      icem_lcand_add env (some m) (some bi) ctype addr = (0, some m') →
      m'.lcandl = m.lcandl.set bi { b with nrefs := b.nrefs + 1 }
        ++ [derivedCand bi b ctype addr] ∧
      (derivedCand bi b ctype addr).compid = b.compid ∧
      (derivedCand bi b ctype addr).ifname = b.ifname ∧
      (derivedCand bi b ctype addr).transp = b.transp ∧
      (derivedCand bi b ctype addr).rel = some b.addr ∧
      (derivedCand bi b ctype addr).base = BaseRef.idx bi) := by
  refine ⟨fun env icem ctype addr => rfl, ?_⟩
  intro env m bi b ctype addr m' hb h
  obtain ⟨_, _, hlc⟩ := icem_lcand_add_ok hb h
  exact ⟨hlc, rfl, rfl, rfl, rfl, rfl⟩

/-- Witness for C5: deriving a server-reflexive candidate from the stored
host candidate `cand0`. -/
theorem claim_C5_witness :
    icem0hd.lcandl = icem0h.lcandl.set 0 { cand0 with nrefs := cand0.nrefs + 1 }
      ++ [derivedCand 0 cand0 .srflx (some saB)] ∧
    (derivedCand 0 cand0 .srflx (some saB)).compid = cand0.compid ∧
    (derivedCand 0 cand0 .srflx (some saB)).ifname = cand0.ifname ∧
    (derivedCand 0 cand0 .srflx (some saB)).transp = cand0.transp ∧
    (derivedCand 0 cand0 .srflx (some saB)).rel = some cand0.addr ∧
    (derivedCand 0 cand0 .srflx (some saB)).base = BaseRef.idx 0 :=
  claim_C5.2 envOK icem0h 0 cand0 .srflx (some saB) icem0hd (by decide) (by decide)

/-- C6: `icem_cand_find` returns the first candidate in insertion order
whose component id matches (query id 0 is a wildcard; a non-zero query id
matches only equal stored ids) and whose address, when one is queried,
is exactly equal (family, IP and port); it returns `none` exactly when no
stored candidate matches. -/
theorem claim_C6 (lst : List Cand) (compid : Nat) (addr : Option SA) :
    icem_cand_find lst compid addr = lst.find? (findSpecMatch compid addr) ∧
    (icem_cand_find lst compid addr = none ↔
      ∀ c ∈ lst, findSpecMatch compid addr c = false) := by
  have key : ∀ l : List Cand,
      icem_cand_find l compid addr = l.find? (findSpecMatch compid addr) := by
    intro l
    induction l with
    | nil => rfl
    | cons c cs ih =>
      by_cases h1 : compid ≠ 0 ∧ c.compid ≠ compid
      · have hf : findSpecMatch compid addr c = false := by
          simp [findSpecMatch, h1.1, h1.2]
        simp only [icem_cand_find, if_pos h1, List.find?_cons, hf, ih]
      · have h1' := h1
        rw [not_and_or] at h1'
        simp only [ne_eq, not_not] at h1'
        have hcomp : (compid == 0 || c.compid == compid) = true := by
          rcases h1' with h | h
          · simp [h]
          · simp [h]
        by_cases h2 : (match addr with
                       | none => false
                       | some a => sa_cmp_all c.addr a = false)
        · have hf : findSpecMatch compid addr c = false := by
            cases addr with
            | none => simp at h2
            | some a =>
              have ha : sa_cmp_all c.addr a = false := of_decide_eq_true h2
              simp only [sa_cmp_all] at ha
              simp [findSpecMatch, ha]
          simp only [icem_cand_find, if_neg h1, if_pos h2, List.find?_cons, hf, ih]
        · have hf : findSpecMatch compid addr c = true := by
            cases addr with
            | none => simp [findSpecMatch, hcomp]
            | some a =>
              have hnot : ¬ sa_cmp_all c.addr a = false := fun hf0 => h2 (decide_eq_true hf0)
              have ha : sa_cmp_all c.addr a = true := by
                rcases Bool.eq_false_or_eq_true (sa_cmp_all c.addr a) with htrue | hfalse
                · exact htrue
                · exact absurd hfalse hnot
              simp only [sa_cmp_all] at ha
              simp [findSpecMatch, hcomp, ha]
          simp only [icem_cand_find, if_neg h1, if_neg h2, List.find?_cons, hf]
  refine ⟨key lst, ?_⟩
  rw [key lst, List.find?_eq_none]
  constructor
  · intro h c hc
    have := h c hc
    simpa using this
  · intro h c hc
    simp [h c hc]

/-- C7: after every sequence of registry operations starting from a fresh
session, every local candidate's `base` is either the candidate itself
(`BaseRef.self`, the shape `icem_lcand_add_base` stores — in C,
`cand->base == cand`) or a reference to a strictly earlier candidate of
the list (`BaseRef.idx j`, `j < i`, the shape `icem_lcand_add` stores):
never the NULL left by `mem_zalloc`, and, for a derived candidate, never
the candidate itself.  The second and third conjuncts pin down which
of the two shapes each inserting operation produces: host candidates are
exactly the self-based ones and derived candidates refer to their base's
(distinct, earlier) position. -/
theorem claim_C7 :
    (∀ comps ops, baseInv (runOps comps ops)) ∧
    (∀ env m compid lprio ifname transp addr m' comp,
      icem_comp_find (some m) compid = some comp →
      icem_lcand_add_base env (some m) compid lprio ifname transp addr = (0, some m') →
      m'.lcandl = m.lcandl ++ [hostCand comp compid lprio ifname transp addr] ∧
      (hostCand comp compid lprio ifname transp addr).base = BaseRef.self) ∧
    (∀ env m bi b ctype addr m',
      m.lcandl[bi]? = some b →
      icem_lcand_add env (some m) (some bi) ctype addr = (0, some m') →
      bi < m.lcandl.length ∧
      m'.lcandl = m.lcandl.set bi { b with nrefs := b.nrefs + 1 }
        ++ [derivedCand bi b ctype addr] ∧
      (derivedCand bi b ctype addr).base = BaseRef.idx bi) := by
  refine ⟨runOps_baseInv, ?_, ?_⟩
  · intro env m compid lprio ifname transp addr m' comp hc h
    exact ⟨(icem_lcand_add_base_ok hc h).2.2, rfl⟩
  · intro env m bi b ctype addr m' hb h
    exact ⟨(List.getElem?_eq_some.mp hb).1, (icem_lcand_add_ok hb h).2.2, rfl⟩

/-- Witness for C7: the concrete host insertion stores a self-based
candidate. -/
theorem claim_C7_witness :
    icem0h.lcandl = icem0.lcandl ++ [hostCand { compid := 1, lport := 5000 }
      1 65535 none 0 (some saA)] ∧
    (hostCand { compid := 1, lport := 5000 } 1 65535 none 0 (some saA)).base
      = BaseRef.self :=
  claim_C7.2.1 envOK icem0 1 65535 none 0 (some saA) icem0h
    { compid := 1, lport := 5000 } (by decide) (by decide)

/-- C8: a successful `icem_lcand_add_base` stores a candidate whose address
port equals the bound local port of the component found for the given
component id, whatever port the caller-supplied address carried; when the
component id is unknown the call fails with `ENOENT` and changes
nothing. -/
theorem claim_C8 :
    (∀ env m compid lprio ifname transp addr,
      icem_comp_find (some m) compid = none →
      icem_lcand_add_base env (some m) compid lprio ifname transp addr
        = (ENOENT, some m)) ∧
    (∀ env m compid lprio ifname transp addr m' comp,
      icem_comp_find (some m) compid = some comp →
      icem_lcand_add_base env (some m) compid lprio ifname transp addr = (0, some m') →
      ∃ c, m'.lcandl = m.lcandl ++ [c] ∧ c.addr.port = comp.lport) := by
  refine ⟨?_, ?_⟩
  · intro env m compid lprio ifname transp addr hc
    simp only [icem_lcand_add_base, hc]
  · intro env m compid lprio ifname transp addr m' comp hc h
    exact ⟨_, (icem_lcand_add_base_ok hc h).2.2, rfl⟩

/-- Witness for C8: the caller asked for port 4000 (`saA`), the stored
candidate carries the component's bound port 5000. -/
theorem claim_C8_witness :
    ∃ c, icem0h.lcandl = icem0.lcandl ++ [c] ∧ c.addr.port = 5000 :=
  claim_C8.2 envOK icem0 1 65535 none 0 (some saA) icem0h
    { compid := 1, lport := 5000 } (by decide) (by decide)

/-- Counterexample for C9 as stated: with a sink failing with code 1 on the
second write (the first failure) and code 2 on the third write — both
inside the same candidate's iteration — `icem_cands_debug` returns
`1 ||| 2 = 3`, which differs from the first failure code 1 (and from
every individual sink return), because the C loop body accumulates with
`err |=`. -/
theorem claim_C9_cex :
    (icem_cands_debug pfCex [candRel]).1 = 3 ∧
    pfCex 0 = 0 ∧ pfCex 1 = 1 ∧ pfCex 2 = 2 ∧ pfCex 3 = 0 ∧
    (3 : Nat) ≠ 1 ∧ (3 : Nat) ≠ 2 :=
  ⟨by decide, rfl, rfl, rfl, rfl, by decide, by decide⟩

/-- C9 (amended): the formatter is read-only and never fails when the sink
never fails; once a sink failure occurs, no further candidate iteration
runs (the loop guard re-checks the error); and the value returned is the
bitwise OR of the failure codes of the writes of the failing iteration —
equal to the first failure whenever the sink fails with a single error
code, but not in general. -/
theorem claim_C9 :
    (∀ pf (lst : List Cand), (∀ k, pf k = 0) → (icem_cands_debug pf lst).1 = 0) ∧
    (∀ pf (lst : List Cand) err st, err ≠ 0 → debug_loop pf lst err st = (err, st)) ∧
    (∀ pf (lst : List Cand) e, (∀ k, pf k = 0 ∨ pf k = e) →
      (icem_cands_debug pf lst).1 = 0 ∨ (icem_cands_debug pf lst).1 = e) := by
  refine ⟨?_, debug_loop_stop, ?_⟩
  · intro pf lst hpf
    simp only [icem_cands_debug, hwrite, hpf]
    exact debug_loop_ok pf hpf lst _
  · intro pf lst e hpf
    simp only [icem_cands_debug, hwrite]
    exact debug_loop_code pf e hpf lst _ _ (hpf 0)

/-- Witness for C9: a sink that never fails makes the formatter return 0 on
the empty collection. -/
theorem claim_C9_witness :
    (icem_cands_debug (fun _ => 0) []).1 = 0 :=
  claim_C9.1 (fun _ => 0) [] (fun _ => rfl)

/-- Counterexample for C10 as stated: `icem_lcand_add_base` on a NULL
session fails with `ENOENT` (the component lookup finds nothing), not
`EINVAL`. -/
theorem claim_C10_cex :
    icem_lcand_add_base envOK none 1 0 none 0 (some saA) = (ENOENT, none) ∧
    ENOENT ≠ EINVAL :=
  ⟨rfl, by decide⟩

/-- C10 (amended): invoked with a NULL session, `icem_lcand_add`,
`icem_rcand_add` and `icem_rcand_add_prflx` fail immediately with
`EINVAL` and no collection exists to be modified; `icem_lcand_add_base`
also fails immediately, but with `ENOENT`, because its component lookup
runs before the NULL check inside `cand_alloc` ever would. -/
theorem claim_C10 :
    (∀ env compid lprio ifname transp addr,
      icem_lcand_add_base env none compid lprio ifname transp addr = (ENOENT, none)) ∧
    (∀ env base ctype addr,
      icem_lcand_add env none base ctype addr = (EINVAL, none)) ∧
    (∀ env ctype compid prio addr rel_addr fnd,
      icem_rcand_add env none ctype compid prio addr rel_addr fnd = (EINVAL, none)) ∧
    (∀ env compid prio addr,
      icem_rcand_add_prflx env none compid prio addr = (EINVAL, none, none)) := by
  refine ⟨fun env compid lprio ifname transp addr => rfl, ?_, ?_, ?_⟩
  · intro env base ctype addr
    cases base <;> rfl
  · intro env ctype compid prio addr rel_addr fnd
    rfl
  · intro env compid prio addr
    rfl

end IceCand
